import Mathlib

/-!
Verification development for the provenance-tracked drawing canvas
(`src/src/public/ai-benchmark/assets/Canvas.tsx`).

The React component `Canvas` registers five mutators (draw, drawEnd, clear,
undo, redo) in a trrack registry, applies them as ephemeral or durable nodes
of a provenance graph, and drives undo/redo through
`getLastNNonEphemeralNode` and an `undoStack` of node ids.

The trrack library itself (`trrack-alpha/core`) is part of the repository but
its sources are not available here; its graph store, state reconstructor,
navigator and import/export are modelled from the specification
(sections 3, 4.2-4.5, 6).  Everything in the `Canvas` component itself is
translated directly from the source.
-/

namespace Basilisk

/-- A stroke, from `Lines` in Canvas.tsx:
`{ tool: string; points: number[], width: number, color: string }`. -/
structure LineT where
  tool : String
  points : List Int
  width : Int
  color : String
deriving DecidableEq

/-- `Lines` from Canvas.tsx. -/
abbrev Lines := List LineT

/-- `KonvaState` from Canvas.tsx. -/
structure KonvaState where
  lines : Lines
  tool : String
  color : String
  penSize : String
deriving DecidableEq

/-- Stands for the external constant `DEFAULT_THEME.colors.red[5]`. -/
def defaultRed : String := "red.5"

/-- The initial state passed to `initializeTrrack` in Canvas.tsx:
`{ lines: [], tool: 'pen', color: DEFAULT_THEME.colors.red[5], penSize: '5' }`. -/
def initialKonvaState : KonvaState :=
  { lines := [], tool := "pen", color := defaultRed, penSize := "5" }

/-- The names under which Canvas.tsx registers its five mutators. -/
inductive MutName where
  | draw
  | drawEnd
  | clear
  | undo
  | redo
deriving DecidableEq

/-- `draw` mutator from Canvas.tsx: `state.lines = _lines; return state`. -/
def drawMutator (s : KonvaState) (l : Lines) : KonvaState := { s with lines := l }

/-- `drawEnd` mutator from Canvas.tsx: `state.lines = _lines; return state`. -/
def drawEndMutator (s : KonvaState) (l : Lines) : KonvaState := { s with lines := l }

/-- `clear` mutator from Canvas.tsx: `state.lines = []; return state`. -/
def clearMutator (s : KonvaState) (_l : Lines) : KonvaState := { s with lines := [] }

/-- `undo` mutator from Canvas.tsx: `state.lines = _lines; return state`. -/
def undoMutator (s : KonvaState) (l : Lines) : KonvaState := { s with lines := l }

/-- `redo` mutator from Canvas.tsx: `state.lines = _lines; return state`. -/
def redoMutator (s : KonvaState) (l : Lines) : KonvaState := { s with lines := l }

/-- Dispatch through the registry: the mutator registered under each name. -/
def applyMutator : MutName → KonvaState → Lines → KonvaState
  | MutName.draw => drawMutator
  | MutName.drawEnd => drawEndMutator
  | MutName.clear => clearMutator
  | MutName.undo => undoMutator
  | MutName.redo => redoMutator

/-- Modelled from the spec: an `Invocation` object `{mutatorName, parameters}`
produced by a registered `MutatorHandle` (spec section 4.1); the trrack registry
sources are not under `src/`. -/
structure Invocation where
  name : MutName
  param : Lines
deriving DecidableEq

/-- Modelled from the spec: node kind tag, spec section 3
(`kind : Ephemeral | Durable`). -/
inductive NodeKind where
  | durable
  | ephemeral
deriving DecidableEq

/-- Modelled from the spec: a `HistoryNode` (spec section 3).  Node ids are the
positions in the graph's node list; `parent` is `none` only for the root; the
root carries no invocation.  The `label` is the first argument of
`trrack.apply(label, action)` at the call sites in Canvas.tsx. -/
structure HistoryNode where
  parent : Option Nat
  label : String
  invocation : Option Invocation
  kind : NodeKind
deriving DecidableEq

/-- Modelled from the spec: the `ProvenanceGraph` (spec section 3): the full
set of history nodes (ids are list positions), the root's stored initial
state, and the `currentNodeId` pointer. -/
structure ProvenanceGraph where
  nodes : List HistoryNode
  rootState : KonvaState
  current : Nat
deriving DecidableEq

/-- Modelled from the spec: `createRoot(initialState)` (spec section 4.2):
seeds the graph with the root node and points `currentNodeId` at it. -/
def createRoot (init : KonvaState) : ProvenanceGraph :=
  { nodes := [{ parent := none, label := "root", invocation := none, kind := NodeKind.durable }],
    rootState := init,
    current := 0 }

/-- Modelled from the spec: `apply(invocation, kind)` (spec section 4.2):
creates a new node whose parent is the current node, appends it, and advances
`currentNodeId` to it.  `isEphemeral` is the flag Canvas.tsx passes in the
options of `trrack.apply`. -/
def applyG (g : ProvenanceGraph) (label : String) (inv : Invocation) (isEphemeral : Bool) :
    ProvenanceGraph :=
  { nodes := g.nodes ++
      [{ parent := some g.current, label := label, invocation := some inv,
         kind := cond isEphemeral NodeKind.ephemeral NodeKind.durable }],
    rootState := g.rootState,
    current := g.nodes.length }

/-- Modelled from the spec: the invocation chain of `resolveState`
(spec section 4.3): walk parent links from a node back to the root and collect
the invocations in root-to-node order.  The fuel argument bounds the walk; on a
well-formed graph a fuel of `nodes.length` is always enough. -/
def chainAux (ns : List HistoryNode) : Nat → Nat → List Invocation
  | 0, _ => []
  | fuel + 1, nid =>
    match ns[nid]? with
    | none => []
    | some n =>
      match n.parent, n.invocation with
      | some p, some inv => chainAux ns fuel p ++ [inv]
      | _, _ => []

/-- Modelled from the spec: replay an invocation chain from an initial state
(spec section 4.3). -/
def replay (init : KonvaState) (chain : List Invocation) : KonvaState :=
  chain.foldl (fun s inv => applyMutator inv.name s inv.param) init

/-- Modelled from the spec: `resolveState(graph, nodeId)` / `trrack.getState`
(spec section 4.3): replay the invocation chain from the root's stored initial
state. -/
def resolveState (g : ProvenanceGraph) (nid : Nat) : KonvaState :=
  replay g.rootState (chainAux g.nodes g.nodes.length nid)

/-- Modelled from the spec: the walk of `findLastNonEphemeralAncestor`
(spec section 4.4): from a start node, walk parent links counting only durable
nodes; with skip count 0 return the nearest durable ancestor at or before the
start (inclusive); each durable node decrements the skip count; return the
root as a sentinel when history is exhausted. -/
def findAux (ns : List HistoryNode) : Nat → Nat → Nat → Nat
  | 0, nid, _ => nid
  | fuel + 1, nid, skip =>
    match ns[nid]? with
    | none => nid
    | some n =>
      match n.parent with
      | none => nid
      | some p =>
        match n.kind, skip with
        | NodeKind.durable, 0 => nid
        | NodeKind.durable, s + 1 => findAux ns fuel p s
        | NodeKind.ephemeral, s => findAux ns fuel p s

/-- Modelled from the spec: `trrack.getLastNNonEphemeralNode(skip)`
(spec section 4.4, `findLastNonEphemeralAncestor(startNodeId, skipCount)`
started at the current node). -/
def getLastNNonEphemeralNode (g : ProvenanceGraph) (skip : Nat) : Nat :=
  findAux g.nodes g.nodes.length g.current skip

/-- Modelled from the spec: `isRootNode` from the trrack core (spec section 3:
`parentId` is absent only for the root). -/
def isRootNodeAt (g : ProvenanceGraph) (nid : Nat) : Bool :=
  match g.nodes[nid]? with
  | some n => n.parent.isNone
  | none => false

/-- Modelled from the spec: `isStateNode` from the trrack core: a non-root
node (one with a parent). -/
def isStateNodeAt (g : ProvenanceGraph) (nid : Nat) : Bool :=
  match g.nodes[nid]? with
  | some n => n.parent.isSome
  | none => false

/-- Modelled from the spec: one serialized node of the `SerializedGraph`
on-the-wire format (spec section 6): `{parentId?, kind, mutatorName?,
parameters?}` keyed by node id (here: list position). -/
structure SerializedNode where
  parentId : Option Nat
  label : String
  invocation : Option Invocation
  kind : NodeKind
deriving DecidableEq

/-- Modelled from the spec: the `SerializedGraph` transported shape
(spec section 6): the node mapping plus `rootState` and `currentNodeId`. -/
structure SerializedGraph where
  nodes : List SerializedNode
  rootState : KonvaState
  currentNodeId : Nat
deriving DecidableEq

/-- Modelled from the spec: `exportGraph(graph)` / `trrack.graph.backend`
(spec section 4.5): a deep, structurally complete snapshot of all nodes,
parent links and `currentNodeId`. -/
def exportGraph (g : ProvenanceGraph) : SerializedGraph :=
  { nodes := g.nodes.map (fun n =>
      { parentId := n.parent, label := n.label, invocation := n.invocation, kind := n.kind }),
    rootState := g.rootState,
    currentNodeId := g.current }

/-- Modelled from the spec: `importGraph(serialized)` / `trrack.importObject`
(spec section 4.5): reconstructs an equivalent graph from the serialized
shape. -/
def importGraph (s : SerializedGraph) : ProvenanceGraph :=
  { nodes := s.nodes.map (fun n =>
      { parent := n.parentId, label := n.label, invocation := n.invocation, kind := n.kind }),
    rootState := s.rootState,
    current := s.currentNodeId }

/-- Modelled from the spec: the rate limiter state of `lodash.throttle` as the
spec describes it (section 5: high-frequency input is rate-limited before
reaching `apply`, minimum inter-call spacing ~50ms): the time of the last
invocation that was let through. -/
structure ThrottleState where
  lastCall : Option Nat
deriving DecidableEq

/-- Modelled from the spec: one throttled call at time `t` (section 5):
the call is let through when no call went through yet or the minimum spacing
`wait` has elapsed since the last one. -/
def throttleStep (wait : Nat) (ts : ThrottleState) (t : Nat) : ThrottleState × Bool :=
  match ts.lastCall with
  | none => ({ lastCall := some t }, true)
  | some t0 => if t0 + wait ≤ t then ({ lastCall := some t }, true) else (ts, false)

/-- The times at which a sequence of throttled calls actually goes through. -/
def acceptedTimes (wait : Nat) : ThrottleState → List Nat → List Nat
  | _, [] => []
  | ts, t :: rest =>
    let step := throttleStep wait ts t
    if step.2 then t :: acceptedTimes wait step.1 rest else acceptedTimes wait step.1 rest

/-- The React component's state: the trrack instance plus the `useState`
hooks `lines`, `tool`, `penSize`, `color`, `undoStack`, the `isDrawing` ref,
and the state of the 50ms throttle wrapping `debouncedApply`. -/
structure CanvasState where
  graph : ProvenanceGraph
  lines : Lines
  tool : String
  color : String
  penSize : String
  undoStack : List Nat
  isDrawing : Bool
  throttle : ThrottleState
deriving DecidableEq

/-- The `Answer` payload of `setAnswer` in `handleMouseUp`:
`{ status: true, provenanceGraph: trrack.graph.backend }`. -/
structure Answer where
  status : Bool
  provenanceGraph : SerializedGraph
deriving DecidableEq

/-- The `state.field || default` pattern of Canvas.tsx lines 119-122: for a
string, the only falsy value is the empty string, in which case the default
replaces it. -/
def orDefault (s d : String) : String :=
  if s = "" then d else s

/-- Component initialization (Canvas.tsx lines 51-54, 100-123): a fresh trrack
instance over `initialKonvaState`; when a stored serialized graph exists for
the configured response it is imported (after `structuredClone`, the identity
on pure values) and the working state is set from the state resolved at the
current node of the imported graph, each string field passing through its
`|| default` check (lines 119-122; `state.lines || []` never substitutes,
since an array — even an empty one — is truthy); otherwise the `useState`
defaults stand. -/
def initCanvas (stored : Option SerializedGraph) : CanvasState :=
  match stored with
  | some s =>
    let g := importGraph s
    let st := resolveState g g.current
    { graph := g, lines := st.lines,
      tool := orDefault st.tool "pen",
      color := orDefault st.color defaultRed,
      penSize := orDefault st.penSize "5",
      undoStack := [], isDrawing := false,
      throttle := { lastCall := none } }
  | none =>
    { graph := createRoot initialKonvaState, lines := [], tool := "pen",
      color := defaultRed, penSize := "5", undoStack := [], isDrawing := false,
      throttle := { lastCall := none } }

/-- `handleMouseMove` (Canvas.tsx lines 151-176) at pointer position `pt` and
time `t`: when not drawing it returns early unchanged; when drawing with an
empty stroke list it throws (`lines[lines.length - 1]` is undefined and the
`.points` dereference at line 165 raises a TypeError) before any state is
touched — modelled as `none`; otherwise the last stroke is extended with the
new point, the undo stack is reset (the `if (undoStack)` guard is always true
for an array), and the extended stroke list is handed to the 50ms-throttled
`debouncedApply`, which applies the `draw` mutator as an ephemeral node when
the throttle lets the call through. -/
def handleMouseMove (c : CanvasState) (pt : Int × Int) (t : Nat) : Option CanvasState :=
  if c.isDrawing = false then some c
  else
    match c.lines.getLast? with
    | none => none
    | some lastLine =>
      let newLines :=
        c.lines.dropLast ++ [{ lastLine with points := lastLine.points ++ [pt.1, pt.2] }]
      let step := throttleStep 50 c.throttle t
      some
        { c with
          lines := newLines,
          undoStack := [],
          throttle := step.1,
          graph :=
            if step.2 then
              applyG c.graph "drawing" { name := MutName.draw, param := newLines } true
            else c.graph }

/-- `handleMouseUp` (Canvas.tsx lines 178-187): stop drawing, apply a durable
`drawEnd` node carrying the current stroke list, and emit
`{ status: true, provenanceGraph: trrack.graph.backend }` to the host. -/
def handleMouseUp (c : CanvasState) : CanvasState × Answer :=
  let c' :=
    { c with
      isDrawing := false,
      graph := applyG c.graph "draw end" { name := MutName.drawEnd, param := c.lines } false }
  (c', { status := true, provenanceGraph := exportGraph c'.graph })

/-- The `Clear all` button (Canvas.tsx lines 223-229): apply a durable `clear`
node and empty the working lines.  The undo stack is not touched. -/
def clearClick (c : CanvasState) : CanvasState :=
  { c with
    graph := applyG c.graph "clear" { name := MutName.clear, param := [] } false,
    lines := [] }

/-- The undo `ActionIcon` click handler (Canvas.tsx lines 234-243): compute the
target via `getLastNNonEphemeralNode(undoStack.length + 1)`; when the current
node is a state node, resolve the target's state, apply an ephemeral node via
the `undo` mutator carrying its lines, set the working lines to them, and push
the current node's id onto the undo stack; otherwise do nothing. -/
def undoClick (c : CanvasState) : CanvasState :=
  let ephemeralNode := getLastNNonEphemeralNode c.graph (c.undoStack.length + 1)
  let currentNode := c.graph.current
  if isStateNodeAt c.graph c.graph.current then
    let prevState := resolveState c.graph ephemeralNode
    { c with
      graph := applyG c.graph "undo" { name := MutName.undo, param := prevState.lines } true,
      lines := prevState.lines,
      undoStack := c.undoStack ++ [currentNode] }
  else c

/-- The undo `ActionIcon` disabled condition (Canvas.tsx line 233):
`isRootNode(trrack.graph.backend.nodes[trrack.getLastNNonEphemeralNode(undoStack.length)])`. -/
def undoDisabled (c : CanvasState) : Bool :=
  isRootNodeAt c.graph (getLastNNonEphemeralNode c.graph c.undoStack.length)

/-- The redo `ActionIcon` disabled condition (Canvas.tsx line 251):
`undoStack.length === 0`. -/
def redoDisabled (c : CanvasState) : Bool :=
  c.undoStack.length == 0

/-- The redo `ActionIcon` click handler (Canvas.tsx lines 252-257): resolve the
state at the most recently pushed undo-stack entry, apply an ephemeral node —
note: via `actions.undo`, the `undo` mutator, under the label `"redo"` — set
the working lines, and pop the stack.  With an empty stack the handler is
unreachable (the control is disabled); the model leaves the state unchanged
there. -/
def redoClick (c : CanvasState) : CanvasState :=
  match c.undoStack.getLast? with
  | none => c
  | some nid =>
    let newState := resolveState c.graph nid
    { c with
      graph := applyG c.graph "redo" { name := MutName.undo, param := newState.lines } true,
      lines := newState.lines,
      undoStack := c.undoStack.dropLast }

/-- A burst of `n` ephemeral `draw` applies (the shape `debouncedApply`
produces during a drag), with the `k`-th apply carrying `ps k`. -/
def burst (g : ProvenanceGraph) (ps : Nat → Lines) : Nat → ProvenanceGraph
  | 0 => g
  | n + 1 => applyG (burst g ps n) "drawing" { name := MutName.draw, param := ps n } true

/-- Parent links point strictly backwards: a node at position `i` has a parent
index below `i` (the root has none). -/
def parentBound (n : HistoryNode) (i : Nat) : Bool :=
  match n.parent with
  | none => true
  | some p => p < i

/-- All nodes of a list, read as sitting at positions `k, k+1, ...`, have
parents pointing strictly backwards. -/
def nodesOk : List HistoryNode → Nat → Bool
  | [], _ => true
  | n :: rest, i => parentBound n i && nodesOk rest (i + 1)

/-- Well-formed graph: the current pointer is in range and every parent link
points strictly backwards.  This holds for every graph built by `createRoot`
and `applyG` and is what makes the fuelled walks total. -/
def Wf (g : ProvenanceGraph) : Prop :=
  g.current < g.nodes.length ∧ nodesOk g.nodes 0 = true

instance (g : ProvenanceGraph) : Decidable (Wf g) := by
  unfold Wf; infer_instance

/-- A fresh session: component initialized with no stored graph. -/
def canvas0 : CanvasState := initCanvas none

/-- After one completed stroke on the fresh session: the graph is the root
plus one durable `drawEnd` node (id 1), which is current. -/
def canvas1 : CanvasState := (handleMouseUp canvas0).1

/-- After clicking undo on `canvas1`: node id 1 has been pushed onto the undo
stack and an ephemeral `undo` node (id 2) appended. -/
def canvas2 : CanvasState := undoClick canvas1

/-- A mid-stroke state: drawing in progress with one non-empty stroke. -/
def canvasDrawing : CanvasState :=
  { canvas2 with
    isDrawing := true,
    lines := [{ tool := "pen", points := [1, 1], width := 5, color := defaultRed }] }

/-- The state after one successful pointer-move sample on `canvasDrawing`. -/
def canvasMoved : CanvasState :=
  (handleMouseMove canvasDrawing (3, 4) 0).getD canvasDrawing

/-! ### Structural lemmas about the graph store -/

theorem nodesOk_spec :
    ∀ (l : List HistoryNode) (k i : Nat) (n : HistoryNode),
      nodesOk l k = true → l[i]? = some n → parentBound n (k + i) = true := by
  intro l
  induction l with
  | nil => intro k i n _ hn; simp at hn
  | cons a rest ih =>
    intro k i n h hn
    rw [nodesOk, Bool.and_eq_true] at h
    cases i with
    | zero =>
      rw [List.getElem?_cons_zero] at hn
      cases hn
      simpa using h.1
    | succ j =>
      rw [List.getElem?_cons_succ] at hn
      have := ih (k + 1) j n h.2 hn
      have harith : k + 1 + j = k + (j + 1) := by omega
      rwa [harith] at this

theorem wfl_parent_lt {ns : List HistoryNode} {i p : Nat} {n : HistoryNode}
    (hok : nodesOk ns 0 = true) (hn : ns[i]? = some n) (hp : n.parent = some p) :
    p < i := by
  have h := nodesOk_spec ns 0 i n hok hn
  rw [parentBound, hp] at h
  simpa using h

theorem getElem?_some_lt {ns : List HistoryNode} {i : Nat} {n : HistoryNode}
    (hn : ns[i]? = some n) : i < ns.length := by
  rcases List.getElem?_eq_some_iff.1 hn with ⟨h, _⟩
  exact h

/-- On a backwards-parent-linked list, the walk of `findAux` does not depend
on the fuel as long as the fuel exceeds the start index. -/
theorem findAux_fuel {ns : List HistoryNode} (hok : nodesOk ns 0 = true) :
    ∀ f1 : Nat, ∀ nid skip f2 : Nat, nid < f1 → nid < f2 →
      findAux ns f1 nid skip = findAux ns f2 nid skip := by
  intro f1
  induction f1 with
  | zero => intro nid skip f2 h1 _; exact absurd h1 (Nat.not_lt_zero nid)
  | succ f ih =>
    intro nid skip f2 h1 h2
    cases f2 with
    | zero => exact absurd h2 (Nat.not_lt_zero nid)
    | succ f2' =>
      cases hn : ns[nid]? with
      | none => simp [findAux, hn]
      | some n =>
        cases hp : n.parent with
        | none => simp [findAux, hn, hp]
        | some p =>
          have hplt : p < nid := wfl_parent_lt hok hn hp
          cases hk : n.kind with
          | durable =>
            cases skip with
            | zero => simp [findAux, hn, hp, hk]
            | succ s =>
              simp only [findAux, hn, hp, hk]
              exact ih p s f2' (by omega) (by omega)
          | ephemeral =>
            simp only [findAux, hn, hp, hk]
            exact ih p skip f2' (by omega) (by omega)

/-- The walk of `findAux` only moves backwards: the result is at most the
start index. -/
theorem findAux_le {ns : List HistoryNode} (hok : nodesOk ns 0 = true) :
    ∀ (fuel nid skip : Nat), findAux ns fuel nid skip ≤ nid := by
  intro fuel
  induction fuel with
  | zero => intro nid skip; rw [findAux]
  | succ f ih =>
    intro nid skip
    cases hn : ns[nid]? with
    | none => simp [findAux, hn]
    | some n =>
      cases hp : n.parent with
      | none => simp [findAux, hn, hp]
      | some p =>
        have hplt : p < nid := wfl_parent_lt hok hn hp
        cases hk : n.kind with
        | durable =>
          cases skip with
          | zero => simp [findAux, hn, hp, hk]
          | succ s =>
            simp only [findAux, hn, hp, hk]
            exact Nat.le_of_lt (Nat.lt_of_le_of_lt (ih p s) hplt)
        | ephemeral =>
          simp only [findAux, hn, hp, hk]
          exact Nat.le_of_lt (Nat.lt_of_le_of_lt (ih p skip) hplt)

/-- Walks that start inside a backwards-parent-linked initial segment never
see nodes appended after it. -/
theorem findAux_append {ns : List HistoryNode} (tail : List HistoryNode)
    (hok : nodesOk ns 0 = true) :
    ∀ (fuel nid skip : Nat), nid < ns.length →
      findAux (ns ++ tail) fuel nid skip = findAux ns fuel nid skip := by
  intro fuel
  induction fuel with
  | zero => intro nid skip _; rw [findAux, findAux]
  | succ f ih =>
    intro nid skip hnid
    have hget : (ns ++ tail)[nid]? = ns[nid]? := List.getElem?_append_left hnid
    cases hn : ns[nid]? with
    | none => simp [findAux, hget, hn]
    | some n =>
      cases hp : n.parent with
      | none => simp [findAux, hget, hn, hp]
      | some p =>
        have hplt : p < nid := wfl_parent_lt hok hn hp
        have hpns : p < ns.length := Nat.lt_trans hplt hnid
        cases hk : n.kind with
        | durable =>
          cases skip with
          | zero => simp [findAux, hget, hn, hp, hk]
          | succ s =>
            simp only [findAux, hget, hn, hp, hk]
            exact ih p s hpns
        | ephemeral =>
          simp only [findAux, hget, hn, hp, hk]
          exact ih p skip hpns

/-- Invocation-chain analog of `findAux_fuel`. -/
theorem chainAux_fuel {ns : List HistoryNode} (hok : nodesOk ns 0 = true) :
    ∀ f1 : Nat, ∀ nid f2 : Nat, nid < f1 → nid < f2 →
      chainAux ns f1 nid = chainAux ns f2 nid := by
  intro f1
  induction f1 with
  | zero => intro nid f2 h1 _; exact absurd h1 (Nat.not_lt_zero nid)
  | succ f ih =>
    intro nid f2 h1 h2
    cases f2 with
    | zero => exact absurd h2 (Nat.not_lt_zero nid)
    | succ f2' =>
      cases hn : ns[nid]? with
      | none => simp [chainAux, hn]
      | some n =>
        cases hp : n.parent with
        | none => simp [chainAux, hn, hp]
        | some p =>
          cases hi : n.invocation with
          | none => simp [chainAux, hn, hp, hi]
          | some inv =>
            have hplt : p < nid := wfl_parent_lt hok hn hp
            simp only [chainAux, hn, hp, hi]
            rw [ih p f2' (by omega) (by omega)]

/-- Invocation-chain analog of `findAux_append`. -/
theorem chainAux_append {ns : List HistoryNode} (tail : List HistoryNode)
    (hok : nodesOk ns 0 = true) :
    ∀ (fuel nid : Nat), nid < ns.length →
      chainAux (ns ++ tail) fuel nid = chainAux ns fuel nid := by
  intro fuel
  induction fuel with
  | zero => intro nid _; rw [chainAux, chainAux]
  | succ f ih =>
    intro nid hnid
    have hget : (ns ++ tail)[nid]? = ns[nid]? := List.getElem?_append_left hnid
    cases hn : ns[nid]? with
    | none => simp [chainAux, hget, hn]
    | some n =>
      cases hp : n.parent with
      | none => simp [chainAux, hget, hn, hp]
      | some p =>
        cases hi : n.invocation with
        | none => simp [chainAux, hget, hn, hp, hi]
        | some inv =>
          have hplt : p < nid := wfl_parent_lt hok hn hp
          simp only [chainAux, hget, hn, hp, hi]
          rw [ih p (Nat.lt_trans hplt hnid)]

theorem nodesOk_append_singleton (l : List HistoryNode) (a : HistoryNode) :
    ∀ k : Nat, nodesOk (l ++ [a]) k = (nodesOk l k && parentBound a (k + l.length)) := by
  induction l with
  | nil => intro k; simp [nodesOk]
  | cons b rest ih =>
    intro k
    rw [List.cons_append, nodesOk, nodesOk, ih (k + 1), Bool.and_assoc]
    have harith : k + 1 + rest.length = k + (b :: rest).length := by
      simp [List.length_cons]; omega
    rw [harith]

theorem wf_createRoot (init : KonvaState) : Wf (createRoot init) := by
  constructor
  · simp [createRoot]
  · rfl

theorem wf_applyG {g : ProvenanceGraph} (hw : Wf g)
    (label : String) (inv : Invocation) (eph : Bool) :
    Wf (applyG g label inv eph) := by
  constructor
  · simp [applyG]
  · show nodesOk (g.nodes ++ [_]) 0 = true
    rw [nodesOk_append_singleton]
    rw [Bool.and_eq_true]
    refine ⟨hw.2, ?_⟩
    show parentBound _ (0 + g.nodes.length) = true
    simp [parentBound]
    exact hw.1

/-- Replay equivalence at an appended node: resolving the state of the node
just created by `applyG` runs the new invocation's mutator on the state
resolved at the previous current node. -/
theorem resolveState_applyG {g : ProvenanceGraph} (hw : Wf g)
    (label : String) (inv : Invocation) (eph : Bool) :
    resolveState (applyG g label inv eph) (applyG g label inv eph).current
      = applyMutator inv.name (resolveState g g.current) inv.param := by
  have hlen : (applyG g label inv eph).nodes.length = g.nodes.length + 1 := by
    simp [applyG]
  show replay (applyG g label inv eph).rootState
      (chainAux (applyG g label inv eph).nodes (applyG g label inv eph).nodes.length
        (applyG g label inv eph).current)
      = applyMutator inv.name (replay g.rootState (chainAux g.nodes g.nodes.length g.current))
          inv.param
  rw [hlen]
  show replay g.rootState
      (chainAux (g.nodes ++ [_]) (g.nodes.length + 1) g.nodes.length) = _
  rw [chainAux, List.getElem?_concat_length]
  show replay g.rootState (chainAux (g.nodes ++ [_]) g.nodes.length g.current ++ [inv]) = _
  rw [chainAux_append _ hw.2 g.nodes.length g.current hw.1]
  show replay g.rootState (chainAux g.nodes g.nodes.length g.current ++ [inv]) = _
  rw [replay, replay, List.foldl_append]
  rfl

/-! ### Navigation lemmas: how `getLastNNonEphemeralNode` moves over applies -/

/-- The sentinel walk always lands on an existing node of a well-formed
graph (it never needs to throw). -/
theorem getLast_lt {g : ProvenanceGraph} (hw : Wf g) (s : Nat) :
    getLastNNonEphemeralNode g s < g.nodes.length :=
  Nat.lt_of_le_of_lt (findAux_le hw.2 g.nodes.length g.current s) hw.1

/-- Appending an ephemeral node does not move the durable-ancestor walk:
the skip count passes over ephemeral nodes unchanged. -/
theorem getLast_applyG_ephemeral {g : ProvenanceGraph} (hw : Wf g)
    (label : String) (inv : Invocation) (s : Nat) :
    getLastNNonEphemeralNode (applyG g label inv true) s
      = getLastNNonEphemeralNode g s := by
  have hcur : g.current < g.nodes.length := hw.1
  unfold getLastNNonEphemeralNode applyG
  simp only [cond_true, List.length_append, List.length_cons, List.length_nil, Nat.zero_add]
  simp only [findAux, List.getElem?_concat_length]
  exact findAux_append
    [{ parent := some g.current, label := label, invocation := some inv,
       kind := NodeKind.ephemeral }] hw.2 g.nodes.length g.current s hcur

/-- Appending a durable node consumes one step of the skip count. -/
theorem getLast_applyG_durable {g : ProvenanceGraph} (hw : Wf g)
    (label : String) (inv : Invocation) (s : Nat) :
    getLastNNonEphemeralNode (applyG g label inv false) (s + 1)
      = getLastNNonEphemeralNode g s := by
  have hcur : g.current < g.nodes.length := hw.1
  unfold getLastNNonEphemeralNode applyG
  simp only [cond_false, List.length_append, List.length_cons, List.length_nil, Nat.zero_add]
  simp only [findAux, List.getElem?_concat_length]
  exact findAux_append
    [{ parent := some g.current, label := label, invocation := some inv,
       kind := NodeKind.durable }] hw.2 g.nodes.length g.current s hcur

theorem wf_burst {g : ProvenanceGraph} (hw : Wf g) (ps : Nat → Lines) :
    ∀ n : Nat, Wf (burst g ps n) := by
  intro n
  induction n with
  | zero => exact hw
  | succ m ih => exact wf_applyG ih "drawing" { name := MutName.draw, param := ps m } true

/-- A whole burst of ephemeral applies does not move the durable-ancestor
walk at all. -/
theorem getLast_burst {g : ProvenanceGraph} (hw : Wf g) (ps : Nat → Lines) :
    ∀ (n s : Nat), getLastNNonEphemeralNode (burst g ps n) s = getLastNNonEphemeralNode g s := by
  intro n s
  induction n with
  | zero => rfl
  | succ m ih =>
    rw [burst, getLast_applyG_ephemeral (wf_burst hw ps m) "drawing" _ s, ih]

/-- Every mutator leaves the non-`lines` fields of the state untouched. -/
theorem applyMutator_fixed_fields (m : MutName) (s : KonvaState) (l : Lines) :
    (applyMutator m s l).tool = s.tool
    ∧ (applyMutator m s l).color = s.color
    ∧ (applyMutator m s l).penSize = s.penSize := by
  cases m <;> exact ⟨rfl, rfl, rfl⟩

/-- Replaying any invocation chain leaves the non-`lines` fields at their
root values: no registered mutator ever changes them. -/
theorem replay_fixed_fields (init : KonvaState) :
    ∀ chain : List Invocation,
      (replay init chain).tool = init.tool
      ∧ (replay init chain).color = init.color
      ∧ (replay init chain).penSize = init.penSize := by
  intro chain
  induction chain generalizing init with
  | nil => exact ⟨rfl, rfl, rfl⟩
  | cons inv rest ih =>
    have hstep : replay init (inv :: rest)
        = replay (applyMutator inv.name init inv.param) rest := rfl
    rw [hstep]
    have h1 := ih (applyMutator inv.name init inv.param)
    have h2 := applyMutator_fixed_fields inv.name init inv.param
    exact ⟨h1.1.trans h2.1, h1.2.1.trans h2.2.1, h1.2.2.trans h2.2.2⟩

/-- The success case of a pointer-move sample while drawing. -/
theorem handleMouseMove_some {c : CanvasState} (pt : Int × Int) (t : Nat)
    {lastLine : LineT} (hd : c.isDrawing = true) (hl : c.lines.getLast? = some lastLine) :
    handleMouseMove c pt t =
      some
        { c with
          lines := c.lines.dropLast ++
            [{ lastLine with points := lastLine.points ++ [pt.1, pt.2] }],
          undoStack := [],
          throttle := (throttleStep 50 c.throttle t).1,
          graph :=
            if (throttleStep 50 c.throttle t).2 then
              applyG c.graph "drawing"
                { name := MutName.draw,
                  param := c.lines.dropLast ++
                    [{ lastLine with points := lastLine.points ++ [pt.1, pt.2] }] } true
            else c.graph } := by
  unfold handleMouseMove
  rw [hd, hl]
  rfl

/-- The throwing case of a pointer-move sample while drawing: with no stroke
to extend, the handler raises before touching any state. -/
theorem handleMouseMove_none {c : CanvasState} (pt : Int × Int) (t : Nat)
    (hd : c.isDrawing = true) (hl : c.lines = []) :
    handleMouseMove c pt t = none := by
  unfold handleMouseMove
  rw [hd, hl]
  rfl

/-! ### Claim theorems -/

/-- Claim C9: every registered mutator (draw, drawEnd, clear, undo, redo)
changes only the `lines` field of the application state: the `tool`, `color`
and `penSize` fields of the returned state equal those of the input state,
for every input state and parameter. -/
theorem mutators_only_change_lines (m : MutName) (s : KonvaState) (l : Lines) :
    (applyMutator m s l).tool = s.tool
    ∧ (applyMutator m s l).color = s.color
    ∧ (applyMutator m s l).penSize = s.penSize := by
  cases m <;> exact ⟨rfl, rfl, rfl⟩

/-- Claim C10: when the current node is not a state node (it is the root),
clicking the undo affordance performs no apply: the provenance graph, the
undo stack and the working lines — the whole component state — are left
unchanged. -/
theorem undo_click_noop_at_root (c : CanvasState)
    (h : isStateNodeAt c.graph c.graph.current = false) :
    undoClick c = c := by
  unfold undoClick
  simp [h]

theorem undo_click_noop_at_root_witness :
    isStateNodeAt canvas0.graph canvas0.graph.current = false
    ∧ undoClick canvas0 = canvas0 :=
  ⟨by decide, undo_click_noop_at_root canvas0 (by decide)⟩

/-- Claim C5: clearing the drawing appends a new durable node (the existing
nodes are untouched) whose invocation is the `clear` mutator; that mutator
resets the stroke list to empty, so the state resolved at the new node has no
strokes; and the working lines become empty. -/
theorem clear_click_spec (c : CanvasState) (hw : Wf c.graph) :
    (clearClick c).graph.nodes
        = c.graph.nodes ++
          [{ parent := some c.graph.current, label := "clear",
             invocation := some { name := MutName.clear, param := [] },
             kind := NodeKind.durable }]
    ∧ (clearClick c).lines = []
    ∧ (∀ (s : KonvaState) (l : Lines), (applyMutator MutName.clear s l).lines = [])
    ∧ (resolveState (clearClick c).graph (clearClick c).graph.current).lines = [] := by
  refine ⟨rfl, rfl, fun s l => rfl, ?_⟩
  have h := resolveState_applyG hw "clear" { name := MutName.clear, param := [] } false
  show (resolveState (applyG c.graph "clear" { name := MutName.clear, param := [] } false)
      (applyG c.graph "clear" { name := MutName.clear, param := [] } false).current).lines = []
  rw [h]
  rfl

theorem clear_click_spec_witness :
    Wf canvas2.graph
    ∧ (clearClick canvas2).lines = []
    ∧ (resolveState (clearClick canvas2).graph (clearClick canvas2).graph.current).lines = [] :=
  ⟨by decide, (clear_click_spec canvas2 (by decide)).2.1,
    (clear_click_spec canvas2 (by decide)).2.2.2⟩

/-- Claim C6: on stroke completion, `handleMouseUp` appends a durable
`drawEnd` node carrying the complete current stroke list (the state resolved
at the new current node has exactly those lines) and emits to the host an
answer with committed status (`status: true`) and the serialized provenance
graph. -/
theorem mouse_up_spec (c : CanvasState) (hw : Wf c.graph) :
    (handleMouseUp c).1.graph.nodes
        = c.graph.nodes ++
          [{ parent := some c.graph.current, label := "draw end",
             invocation := some { name := MutName.drawEnd, param := c.lines },
             kind := NodeKind.durable }]
    ∧ (resolveState (handleMouseUp c).1.graph (handleMouseUp c).1.graph.current).lines = c.lines
    ∧ (handleMouseUp c).2.status = true
    ∧ (handleMouseUp c).2.provenanceGraph = exportGraph (handleMouseUp c).1.graph := by
  refine ⟨rfl, ?_, rfl, rfl⟩
  have h := resolveState_applyG hw "draw end"
    { name := MutName.drawEnd, param := c.lines } false
  show (resolveState
      (applyG c.graph "draw end" { name := MutName.drawEnd, param := c.lines } false)
      (applyG c.graph "draw end" { name := MutName.drawEnd, param := c.lines } false).current).lines
        = c.lines
  rw [h]
  rfl

theorem mouse_up_spec_witness :
    Wf canvas0.graph
    ∧ (handleMouseUp canvas0).2.status = true
    ∧ (resolveState (handleMouseUp canvas0).1.graph
        (handleMouseUp canvas0).1.graph.current).lines = canvas0.lines :=
  ⟨by decide, (mouse_up_spec canvas0 (by decide)).2.2.1, (mouse_up_spec canvas0 (by decide)).2.1⟩

/-- Claim C4 counterexample: on the session consisting of the root and one
durable `drawEnd` node (current, empty undo stack), the durable ancestor
reached after skipping `undoStack.length + 1` durable steps IS the root, yet
the undo affordance is NOT disabled — the disabled check in the source uses
`undoStack.length`, not `undoStack.length + 1`. -/
theorem undo_disabled_cex :
    undoDisabled canvas1 = false
    ∧ isRootNodeAt canvas1.graph
        (getLastNNonEphemeralNode canvas1.graph (canvas1.undoStack.length + 1)) = true := by
  decide

/-- Claim C4 (amended): the undo affordance is disabled exactly when the
durable ancestor reached after skipping `undoStack.length` durable steps from
the current node is the root; exhaustion of undo history is handled by the
sentinel root-returning walk, which is total and always lands on an existing
node of a well-formed graph, never by throwing. -/
theorem undo_disabled_spec (c : CanvasState) (hw : Wf c.graph) :
    (undoDisabled c = true ↔
      isRootNodeAt c.graph (getLastNNonEphemeralNode c.graph c.undoStack.length) = true)
    ∧ getLastNNonEphemeralNode c.graph c.undoStack.length < c.graph.nodes.length :=
  ⟨Iff.rfl, getLast_lt hw c.undoStack.length⟩

theorem undo_disabled_spec_witness :
    Wf canvas1.graph
    ∧ getLastNNonEphemeralNode canvas1.graph canvas1.undoStack.length
        < canvas1.graph.nodes.length :=
  ⟨by decide, (undo_disabled_spec canvas1 (by decide)).2⟩

/-- Claim C2 counterexample: clicking redo after an undo on the one-stroke
session appends a node whose invocation carries the `undo` mutator — under the
label `"redo"` — not the `redo` mutator the claim names. -/
theorem redo_click_mutator_cex :
    ((redoClick canvas2).graph.nodes.getLast?.bind (fun n => n.invocation)).map Invocation.name
        = some MutName.undo
    ∧ MutName.undo ≠ MutName.redo := by
  decide

/-- Claim C2 (amended): with a non-empty undo stack, redo pops the most
recently pushed node id, resolves that node's state, appends a new ephemeral
node labelled `"redo"` whose invocation is the `undo` mutator (behaviourally
identical to `redo`) carrying that resolved payload, and sets the working
lines to that state; redo is disabled exactly when the undo stack is empty. -/
theorem redo_click_spec :
    (∀ (c : CanvasState) (nid : Nat), c.undoStack.getLast? = some nid →
      redoClick c =
        { c with
          graph := applyG c.graph "redo"
              { name := MutName.undo, param := (resolveState c.graph nid).lines } true,
          lines := (resolveState c.graph nid).lines,
          undoStack := c.undoStack.dropLast })
    ∧ (∀ c : CanvasState, redoDisabled c = true ↔ c.undoStack = []) := by
  constructor
  · intro c nid h
    unfold redoClick
    rw [h]
  · intro c
    simp [redoDisabled, List.length_eq_zero]

theorem redo_click_spec_witness :
    canvas2.undoStack.getLast? = some 1
    ∧ redoClick canvas2 =
        { canvas2 with
          graph := applyG canvas2.graph "redo"
              { name := MutName.undo, param := (resolveState canvas2.graph 1).lines } true,
          lines := (resolveState canvas2.graph 1).lines,
          undoStack := canvas2.undoStack.dropLast }
    ∧ (redoDisabled canvas0 = true ↔ canvas0.undoStack = []) :=
  ⟨by decide, redo_click_spec.1 canvas2 1 (by decide), redo_click_spec.2 canvas0⟩

/-- Claim C3 counterexample: on the session root → durable stroke → undo, the
undo stack holds node 1; clicking `Clear all` (a durable, non-undo/redo
action) leaves the stack untouched and redo stays enabled, and completing a
stroke via pointer-up does not clear the stack either. -/
theorem durable_actions_keep_stack_cex :
    canvas2.undoStack = [1]
    ∧ (clearClick canvas2).undoStack = [1]
    ∧ redoDisabled (clearClick canvas2) = false
    ∧ (handleMouseUp canvas2).1.undoStack = [1] := by
  decide

/-- Claim C3 (amended): the undo stack is reset on every pointer-move sample
while drawing that completes (any sample with a non-empty stroke list; with an
empty one the handler throws at the `.points` dereference before touching any
state), so immediately after such a sample redo is disabled; the pointer-up
handler and the clear button themselves leave the undo stack unchanged. -/
theorem undo_stack_reset_spec :
    (∀ (c : CanvasState) (pt : Int × Int) (t : Nat) (c' : CanvasState),
      c.isDrawing = true → handleMouseMove c pt t = some c' →
      c'.undoStack = [] ∧ redoDisabled c' = true)
    ∧ (∀ (c : CanvasState) (pt : Int × Int) (t : Nat),
        c.isDrawing = true → c.lines = [] → handleMouseMove c pt t = none)
    ∧ (∀ c : CanvasState, (clearClick c).undoStack = c.undoStack)
    ∧ (∀ c : CanvasState, (handleMouseUp c).1.undoStack = c.undoStack) := by
  refine ⟨?_, fun c pt t hd hl => handleMouseMove_none pt t hd hl, fun c => rfl, fun c => rfl⟩
  intro c pt t c' hd hm
  cases hl : c.lines.getLast? with
  | none =>
    rw [List.getLast?_eq_none_iff] at hl
    rw [handleMouseMove_none pt t hd hl] at hm
    exact absurd hm (by simp)
  | some lastLine =>
    rw [handleMouseMove_some pt t hd hl] at hm
    cases hm
    exact ⟨rfl, rfl⟩

theorem undo_stack_reset_spec_witness :
    canvasDrawing.isDrawing = true
    ∧ handleMouseMove canvasDrawing (3, 4) 0 = some canvasMoved
    ∧ canvasMoved.undoStack = []
    ∧ redoDisabled canvasMoved = true
    ∧ ({ canvas2 with isDrawing := true } : CanvasState).lines = []
    ∧ handleMouseMove { canvas2 with isDrawing := true } (3, 4) 0 = none :=
  ⟨rfl, by decide,
    (undo_stack_reset_spec.1 canvasDrawing (3, 4) 0 canvasMoved rfl (by decide)).1,
    (undo_stack_reset_spec.1 canvasDrawing (3, 4) 0 canvasMoved rfl (by decide)).2,
    by decide,
    undo_stack_reset_spec.2.1 { canvas2 with isDrawing := true } (3, 4) 0 rfl (by decide)⟩

theorem serializeNode_roundtrip (l : List HistoryNode) :
    (l.map (fun n =>
        ({ parentId := n.parent, label := n.label, invocation := n.invocation,
           kind := n.kind } : SerializedNode))).map
      (fun n =>
        ({ parent := n.parentId, label := n.label, invocation := n.invocation,
           kind := n.kind } : HistoryNode)) = l := by
  induction l with
  | nil => rfl
  | cons a t ih =>
    simp only [List.map_cons]
    rw [ih]

theorem importGraph_exportGraph (g : ProvenanceGraph) : importGraph (exportGraph g) = g := by
  have h := serializeNode_roundtrip g.nodes
  unfold importGraph exportGraph
  rw [h]

/-- Claim C7: starting a session from a previously exported graph — any graph
rooted at the component's initial state, as every graph this component stores
is — imports an equivalent graph and sets the working state (lines, tool,
penSize, color) to the state resolved at the imported graph's current node
(the `|| default` checks of lines 119-122 never fire there, because no
registered mutator touches the tool, color or penSize fields, so they resolve
to the root's non-empty values at every node); resolving any node after
the import matches what was resolved prior to export; with no stored graph the
session starts from the fresh root initial state
`lines = [], tool = pen, color = red, penSize = 5`. -/
theorem session_start_spec :
    (∀ g : ProvenanceGraph, g.rootState = initialKonvaState →
      (initCanvas (some (exportGraph g))).graph = g
      ∧ (initCanvas (some (exportGraph g))).lines = (resolveState g g.current).lines
      ∧ (initCanvas (some (exportGraph g))).tool = (resolveState g g.current).tool
      ∧ (initCanvas (some (exportGraph g))).penSize = (resolveState g g.current).penSize
      ∧ (initCanvas (some (exportGraph g))).color = (resolveState g g.current).color
      ∧ (∀ nid : Nat, resolveState (importGraph (exportGraph g)) nid = resolveState g nid))
    ∧ initCanvas none
        = { graph := createRoot initialKonvaState, lines := [], tool := "pen",
            color := defaultRed, penSize := "5", undoStack := [], isDrawing := false,
            throttle := { lastCall := none } }
    ∧ resolveState (createRoot initialKonvaState) 0 = initialKonvaState := by
  refine ⟨?_, rfl, rfl⟩
  intro g hg
  have h := importGraph_exportGraph g
  have hfix := replay_fixed_fields g.rootState (chainAux g.nodes g.nodes.length g.current)
  have htool : (resolveState g g.current).tool = "pen" := by
    rw [resolveState, hfix.1, hg]
    rfl
  have hcolor : (resolveState g g.current).color = defaultRed := by
    rw [resolveState, hfix.2.1, hg]
    rfl
  have hpen : (resolveState g g.current).penSize = "5" := by
    rw [resolveState, hfix.2.2, hg]
    rfl
  simp only [initCanvas, h]
  refine ⟨trivial, trivial, ?_, ?_, ?_, fun _ => trivial⟩
  · rw [htool]; rfl
  · rw [hpen]; rfl
  · rw [hcolor]; rfl

theorem session_start_spec_witness :
    canvas1.graph.rootState = initialKonvaState
    ∧ (initCanvas (some (exportGraph canvas1.graph))).graph = canvas1.graph
    ∧ (initCanvas (some (exportGraph canvas1.graph))).tool
        = (resolveState canvas1.graph canvas1.graph.current).tool :=
  ⟨by decide, (session_start_spec.1 canvas1.graph (by decide)).1,
    (session_start_spec.1 canvas1.graph (by decide)).2.2.1⟩

/-- Along any accepted call sequence starting from a recorded last call,
consecutive accepted times are at least `wait` apart. -/
theorem acceptedTimes_chain (wait : Nat) :
    ∀ (l : List Nat) (t0 : Nat),
      List.Chain (fun a b => a + wait ≤ b) t0
        (acceptedTimes wait { lastCall := some t0 } l) := by
  intro l
  induction l with
  | nil => intro t0; exact List.Chain.nil
  | cons t rest ih =>
    intro t0
    by_cases h : t0 + wait ≤ t
    · have hstep : acceptedTimes wait { lastCall := some t0 } (t :: rest)
          = t :: acceptedTimes wait { lastCall := some t } rest := by
        simp [acceptedTimes, throttleStep, h]
      rw [hstep]
      exact List.Chain.cons h (ih t)
    · have hstep : acceptedTimes wait { lastCall := some t0 } (t :: rest)
          = acceptedTimes wait { lastCall := some t0 } rest := by
        simp [acceptedTimes, throttleStep, h]
      rw [hstep]
      exact ih t0

theorem acceptedTimes_chain_start (wait : Nat) :
    ∀ l : List Nat,
      List.Chain' (fun a b => a + wait ≤ b)
        (acceptedTimes wait { lastCall := none } l) := by
  intro l
  cases l with
  | nil => trivial
  | cons t rest =>
    have hstep : acceptedTimes wait { lastCall := none } (t :: rest)
        = t :: acceptedTimes wait { lastCall := some t } rest := by
      simp [acceptedTimes, throttleStep]
    rw [hstep]
    exact acceptedTimes_chain wait rest t

/-- Claim C8: pointer-move produces a graph node only through the throttled
`debouncedApply`, and when it does, the node is applied as ephemeral via the
`draw` mutator carrying the (deep-copied) current stroke list; with no stroke
to extend the handler throws before reaching the throttle and applies
nothing; the throttle enforces a minimum inter-call spacing of 50ms between
the applies it lets through. -/
theorem pointer_move_spec :
    (∀ (c : CanvasState) (pt : Int × Int) (t : Nat), c.isDrawing = false →
      handleMouseMove c pt t = some c)
    ∧ (∀ (c : CanvasState) (pt : Int × Int) (t : Nat), c.isDrawing = true →
        c.lines = [] → handleMouseMove c pt t = none)
    ∧ (∀ (c : CanvasState) (pt : Int × Int) (t : Nat) (c' : CanvasState),
        c.isDrawing = true → (throttleStep 50 c.throttle t).2 = false →
        handleMouseMove c pt t = some c' → c'.graph = c.graph)
    ∧ (∀ (c : CanvasState) (pt : Int × Int) (t : Nat) (c' : CanvasState),
        c.isDrawing = true → (throttleStep 50 c.throttle t).2 = true →
        handleMouseMove c pt t = some c' →
        c'.graph = applyG c.graph "drawing"
            { name := MutName.draw, param := c'.lines } true)
    ∧ (∀ l : List Nat,
        List.Chain' (fun a b => a + 50 ≤ b) (acceptedTimes 50 { lastCall := none } l)) := by
  refine ⟨?_, fun c pt t hd hl => handleMouseMove_none pt t hd hl, ?_, ?_,
    acceptedTimes_chain_start 50⟩
  · intro c pt t h
    unfold handleMouseMove
    rw [h]
    rfl
  · intro c pt t c' hd hf hm
    cases hl : c.lines.getLast? with
    | none =>
      rw [List.getLast?_eq_none_iff] at hl
      rw [handleMouseMove_none pt t hd hl] at hm
      exact absurd hm (by simp)
    | some lastLine =>
      rw [handleMouseMove_some pt t hd hl] at hm
      cases hm
      simp [hf]
  · intro c pt t c' hd hf hm
    cases hl : c.lines.getLast? with
    | none =>
      rw [List.getLast?_eq_none_iff] at hl
      rw [handleMouseMove_none pt t hd hl] at hm
      exact absurd hm (by simp)
    | some lastLine =>
      rw [handleMouseMove_some pt t hd hl] at hm
      cases hm
      simp [hf]

theorem pointer_move_spec_witness :
    canvas0.isDrawing = false
    ∧ handleMouseMove canvas0 (1, 2) 0 = some canvas0
    ∧ canvasDrawing.isDrawing = true
    ∧ (throttleStep 50 canvasDrawing.throttle 0).2 = true
    ∧ handleMouseMove canvasDrawing (1, 2) 0 = some ((handleMouseMove canvasDrawing (1, 2) 0).getD canvasDrawing)
    ∧ ((handleMouseMove canvasDrawing (1, 2) 0).getD canvasDrawing).graph
        = applyG canvasDrawing.graph "drawing"
            { name := MutName.draw,
              param := ((handleMouseMove canvasDrawing (1, 2) 0).getD canvasDrawing).lines }
            true :=
  ⟨by decide, pointer_move_spec.1 canvas0 (1, 2) 0 (by decide), rfl, by decide, by decide,
    pointer_move_spec.2.2.2.1 canvasDrawing (1, 2) 0
      ((handleMouseMove canvasDrawing (1, 2) 0).getD canvasDrawing) rfl (by decide) (by decide)⟩

/-- Claim C1: when the current node is a state node, the undo click computes
its target as the durable ancestor reached after skipping
`undoStack.length + 1` durable steps, appends a new ephemeral node whose
invocation is the `undo` mutator carrying the target's resolved lines, sets
the working lines to those resolved lines, and pushes the current node's id
onto the undo stack; and after a burst of N ephemeral `draw` applies followed
by one durable apply, a single undo (empty stack, so skip count 1) targets
exactly the nearest durable ancestor at or before the pre-burst current node —
a node of the pre-burst graph, never an ephemeral node of the burst. -/
theorem undo_click_spec :
    (∀ c : CanvasState, isStateNodeAt c.graph c.graph.current = true →
      undoClick c =
        { c with
          graph := applyG c.graph "undo"
              { name := MutName.undo,
                param := (resolveState c.graph
                  (getLastNNonEphemeralNode c.graph (c.undoStack.length + 1))).lines } true,
          lines := (resolveState c.graph
            (getLastNNonEphemeralNode c.graph (c.undoStack.length + 1))).lines,
          undoStack := c.undoStack ++ [c.graph.current] })
    ∧ (∀ (g : ProvenanceGraph) (ps : Nat → Lines) (n : Nat) (finalLines : Lines), Wf g →
        getLastNNonEphemeralNode
            (applyG (burst g ps n) "draw end"
              { name := MutName.drawEnd, param := finalLines } false) 1
          = getLastNNonEphemeralNode g 0
        ∧ getLastNNonEphemeralNode g 0 < g.nodes.length) := by
  constructor
  · intro c h
    unfold undoClick
    simp [h]
  · intro g ps n finalLines hw
    refine ⟨?_, getLast_lt hw 0⟩
    rw [getLast_applyG_durable (wf_burst hw ps n) "draw end" _ 0]
    exact getLast_burst hw ps n 0

theorem undo_click_spec_witness :
    undoClick canvas1 =
      { canvas1 with
        graph := applyG canvas1.graph "undo"
            { name := MutName.undo,
              param := (resolveState canvas1.graph
                (getLastNNonEphemeralNode canvas1.graph
                  (canvas1.undoStack.length + 1))).lines } true,
        lines := (resolveState canvas1.graph
          (getLastNNonEphemeralNode canvas1.graph (canvas1.undoStack.length + 1))).lines,
        undoStack := canvas1.undoStack ++ [canvas1.graph.current] }
    ∧ getLastNNonEphemeralNode
        (applyG (burst canvas1.graph (fun _ => []) 3) "draw end"
          { name := MutName.drawEnd, param := [] } false) 1
        = getLastNNonEphemeralNode canvas1.graph 0 :=
  ⟨undo_click_spec.1 canvas1 (by decide),
    (undo_click_spec.2 canvas1.graph (fun _ => []) 3 [] (by decide)).1⟩

end Basilisk
